import Mathlib

/-!
# N64 controller library for the CH552G: bit codec, frame transport, command dispatcher

A shallow embedding of `src/src/n64.c` and `src/include/n64.h`.

* The three special-function registers (`N64_DATA_PORT`, `N64_DATA_PORT_PU`,
  `N64_DATA_PORT_OC`) are 8-bit values held as `Nat` with explicit `% 256`.
* Every write to the data port and every `mDelayuS` call is appended to a trace.
* Every read of the data port made by `n64_get` consumes one sample of an input stream
  `pin : Nat → Bool` (the level of the data pin at the k-th read).
* The two busy-wait loops of `n64_get` have no exit other than the pin level, so they are
  embedded with a spin budget `fuel`; exhausting it is the fault `outOfFuel`.
* Array accesses use checked indexing; an index outside the array is the fault `outOfBounds`.
* `sizeof(n64_status_t)` depends on how the compiler lays out the bit-fields of the union, so
  a status is held as the bytes of its object: the three bytes of `raw8` and the bytes that
  follow them, of which there may be none.
-/

namespace N64

/-! ## Data model -/

/-- One observable action on the data line. -/
inductive Ev where
  /-- A write to `N64_DATA_PORT`; `level` is the value written to the pin bit. -/
  | pin (level : Bool)
  /-- A call `mDelayuS(us)`. -/
  | delay (us : Nat)
  deriving DecidableEq

/-- Ways in which a run of the embedded code fails to produce a result. -/
inductive Fault where
  /-- A busy-wait loop spun more often than the budget allows. -/
  | outOfFuel
  /-- An array was indexed at `idx`, outside its bounds. -/
  | outOfBounds (idx : Nat)
  deriving DecidableEq

/-- Machine state. `port`, `pu`, `oc` are the registers `N64_DATA_PORT`, `N64_DATA_PORT_PU`
and `N64_DATA_PORT_OC`; `pos` counts the reads of the data pin made so far; `trace` is the
sequence of port writes and delays. `sent` and `cycles` are bookkeeping only: `sent` logs the
bytes handed to each call of `n64_send`, `cycles` counts the calls of `n64_respond`. -/
structure Hw where
  port : Nat
  pu : Nat
  oc : Nat
  pos : Nat
  trace : List Ev
  sent : List (List Nat)
  cycles : Nat
  deriving DecidableEq

/-- The enum `n64_ret_t` (n64.c, lines 60-66). -/
inductive n64_ret_t where
  | RET_NONE
  | RET_ID
  | RET_STATUS
  | RET_READ_EXP_BUS
  | RET_WRITE_EXP_BUS
  deriving DecidableEq

/-- Integer value of an enumerator: `RET_NONE = 0` and the rest count upwards. -/
def n64_ret_t.val : n64_ret_t → Nat
  | .RET_NONE => 0
  | .RET_ID => 1
  | .RET_STATUS => 2
  | .RET_READ_EXP_BUS => 3
  | .RET_WRITE_EXP_BUS => 4

/-- The union `n64_status_t` (n64.c, lines 9-58) as the bytes of its object. The first three
are its member `raw8[3]`. `tail` holds the bytes by which the object extends past `raw8`; how
many there are is decided by the compiler's layout of the bit-fields of the other member (none
when the sixteen bits declared over `dev` share two bytes, one when a bit-field that does not
fit the current byte starts the next byte, more with alignment padding), so it is left open. -/
structure n64_status_t where
  raw8_0 : Nat
  raw8_1 : Nat
  raw8_2 : Nat
  tail : List Nat
  deriving DecidableEq

/-- The array member `raw8` of a status. -/
def n64_status_t.raw8 (s : n64_status_t) : List Nat :=
  [s.raw8_0, s.raw8_1, s.raw8_2]

/-- The bytes of a status object from its first byte, where `raw8` starts, to its last: what
a read through the pointer `ref_status->raw8` finds at offsets `0` to `sizeof - 1`. -/
def n64_status_t.object (s : n64_status_t) : List Nat :=
  s.raw8 ++ s.tail

/-- The value of `sizeof(n64_status_t)` under the layout of this object. -/
def n64_status_t.size (s : n64_status_t) : Nat :=
  3 + s.tail.length

/-- The union `n64_report_t` (n64.h, lines 35-73), seen through its second anonymous struct:
sixteen one-bit fields followed by two `int8_t` axes. -/
structure n64_report_t where
  d_pad_right : Bool
  d_pad_left : Bool
  d_pad_down : Bool
  d_pad_up : Bool
  start : Bool
  z : Bool
  b : Bool
  a : Bool
  c_right : Bool
  c_left : Bool
  c_down : Bool
  c_up : Bool
  r : Bool
  l : Bool
  low1 : Bool
  low0 : Bool
  x_axis : Int
  y_axis : Int
  deriving DecidableEq

/-- Pack eight one-bit fields into a byte, the first field in bit 0 (bit-fields are allocated
from the least significant bit). -/
def pack_bits : List Bool → Nat
  | [] => 0
  | b :: bs => (if b then 1 else 0) + 2 * pack_bits bs

/-- The array member `raw8` of a report: the storage shared with the bit-fields. An `int8_t`
axis is stored as its two's complement byte. -/
def n64_report_t.raw8 (rp : n64_report_t) : List Nat :=
  [ pack_bits [rp.d_pad_right, rp.d_pad_left, rp.d_pad_down, rp.d_pad_up,
               rp.start, rp.z, rp.b, rp.a] % 256,
    pack_bits [rp.c_right, rp.c_left, rp.c_down, rp.c_up,
               rp.r, rp.l, rp.low1, rp.low0] % 256,
    (rp.x_axis % 256).toNat,
    (rp.y_axis % 256).toNat ]

/-- The constant `DEF_STATUS = { { 0x05, 0x00, 0x02 } }` (n64.c, line 68): the initializer
fills `raw8`; the bytes the layout puts after `raw8`, if any, are the parameter. -/
def DEF_STATUS (tail : List Nat) : n64_status_t :=
  { raw8_0 := 0x05, raw8_1 := 0x00, raw8_2 := 0x02, tail := tail }

/-- The default `N64_DATA_PIN` of n64.h, line 30. -/
def N64_DATA_PIN : Nat := 6

/-- The constant `N64_PIN_BIT = 1 << N64_DATA_PIN`, a `uint8_t` (n64.c, line 69). -/
def N64_PIN_BIT : Nat := (1 <<< N64_DATA_PIN) % 256

/-! ## Register primitives -/

/-- The 8-bit update `reg |= mask`. -/
def set_bits (reg mask : Nat) : Nat := (reg ||| mask) % 256

/-- The 8-bit update `reg &= ~mask`. -/
def clear_bits (reg mask : Nat) : Nat := (reg &&& (255 ^^^ (mask % 256))) % 256

/-- Store `v` in `N64_DATA_PORT` and record the level given to the data pin. -/
def write_port (v : Nat) (hw : Hw) : Hw :=
  { hw with port := v, trace := hw.trace ++ [Ev.pin (v.testBit N64_DATA_PIN)] }

/-- The external busy-wait `mDelayuS(us)`: only the request is recorded. -/
def mDelayuS (us : Nat) (hw : Hw) : Hw :=
  { hw with trace := hw.trace ++ [Ev.delay us] }

/-- One read of `N64_DATA_PORT & N64_PIN_BIT`: the next sample of the pin. -/
def read_pin (pin : Nat → Bool) (hw : Hw) : Bool × Hw :=
  (pin hw.pos, { hw with pos := hw.pos + 1 })

/-! ## n64_send (n64.c, lines 71-96) -/

/-- The body of the inner loop of `n64_send` (lines 85-88): the slot of bit `j` of `data`. -/
def send_bit (data j : Nat) (hw : Hw) : Hw :=
  let hw := write_port (clear_bits hw.port N64_PIN_BIT) hw
  let hw := mDelayuS (if (data >>> j) &&& 0x01 ≠ 0 then 1 else 3) hw
  let hw := write_port (set_bits hw.port N64_PIN_BIT) hw
  mDelayuS (if (data >>> j) &&& 0x01 ≠ 0 then 3 else 1) hw

/-- The inner loop `for (int j = 7; j >= 0; j--)` of `n64_send`; the argument is `j + 1`, the
number of bits still to go. -/
def send_bits (data : Nat) : Nat → Hw → Hw
  | 0, hw => hw
  | j + 1, hw => send_bits data j (send_bit data j hw)

/-- The outer loop `for (uint8_t i = 0; i < len; i++)` of `n64_send`, at index `i` with
`n = len - i` iterations to go. -/
def send_bytes (ref_buff : List Nat) : Nat → Nat → Hw → Except Fault Hw
  | _, 0, hw => .ok hw
  | i, n + 1, hw =>
    match ref_buff[i]? with
    | none => .error (.outOfBounds i)
    | some data => send_bytes ref_buff (i + 1) n (send_bits data 8 hw)

/-- The function `n64_send(ref_buff, len)`. -/
def n64_send (ref_buff : List Nat) (len : Nat) (hw : Hw) : Except Fault Hw :=
  let hw := { hw with sent := hw.sent ++ [ref_buff.take len] }
  -- Set pin to output, default high
  let hw := { hw with pu := set_bits hw.pu N64_PIN_BIT }
  let hw := { hw with oc := clear_bits hw.oc N64_PIN_BIT }
  let hw := write_port (set_bits hw.port N64_PIN_BIT) hw
  match send_bytes ref_buff 0 len hw with
  | .error e => .error e
  | .ok hw =>
    -- Stop bit - 2us Low, High
    let hw := write_port (clear_bits hw.port N64_PIN_BIT) hw
    let hw := mDelayuS 2 hw
    let hw := write_port (set_bits hw.port N64_PIN_BIT) hw
    .ok hw

/-! ## n64_get (n64.c, lines 98-121) -/

/-- The loop `while (!(N64_DATA_PORT & N64_PIN_BIT));`. -/
def wait_high (pin : Nat → Bool) : Nat → Hw → Except Fault Hw
  | 0, _ => .error .outOfFuel
  | fuel + 1, hw =>
    let (level, hw) := read_pin pin hw
    if !level then wait_high pin fuel hw else .ok hw

/-- The loop `while (N64_DATA_PORT & N64_PIN_BIT);`. -/
def wait_low (pin : Nat → Bool) : Nat → Hw → Except Fault Hw
  | 0, _ => .error .outOfFuel
  | fuel + 1, hw =>
    let (level, hw) := read_pin pin hw
    if level then wait_low pin fuel hw else .ok hw

/-- The inner loop `for (uint8_t j = 0; j < 8; j++)` of `n64_get` for byte index `i`, at bit
index `j` with `n = 8 - j` iterations to go. -/
def get_bits (pin : Nat → Bool) (fuel : Nat) (i : Nat) :
    Nat → Nat → List Nat → Hw → Except Fault (List Nat × Hw)
  | _, 0, ref_buff, hw => .ok (ref_buff, hw)
  | j, n + 1, ref_buff, hw =>
    match wait_low pin fuel hw with
    | .error e => .error e
    | .ok hw =>
      let hw := mDelayuS 1 hw
      let (level, hw) := read_pin pin hw
      if !level then
        -- ref_buff[j] |= 0x01 << j;
        match ref_buff[j]? with
        | none => .error (.outOfBounds j)
        | some v => get_bits pin fuel i (j + 1) n (ref_buff.set j (set_bits v (0x01 <<< j))) hw
      else
        -- ref_buff[i] &= ~(0x01 << j);
        match ref_buff[i]? with
        | none => .error (.outOfBounds i)
        | some v => get_bits pin fuel i (j + 1) n (ref_buff.set i (clear_bits v (0x01 <<< j))) hw

/-- The outer loop `for (uint8_t i = 0; i < len; i++)` of `n64_get`, at index `i` with
`n = len - i` iterations to go. -/
def get_bytes (pin : Nat → Bool) (fuel : Nat) :
    Nat → Nat → List Nat → Hw → Except Fault (List Nat × Hw)
  | _, 0, ref_buff, hw => .ok (ref_buff, hw)
  | i, n + 1, ref_buff, hw =>
    match wait_high pin fuel hw with
    | .error e => .error e
    | .ok hw =>
      match get_bits pin fuel i 0 8 ref_buff hw with
      | .error e => .error e
      | .ok (ref_buff, hw) => get_bytes pin fuel (i + 1) n ref_buff hw

/-- The function `n64_get(ref_buff, len)`: the result is the returned `uint8_t`, the contents
of `ref_buff` on return, and the machine state. -/
def n64_get (pin : Nat → Bool) (fuel : Nat) (ref_buff : List Nat) (len : Nat) (hw : Hw) :
    Except Fault (Nat × List Nat × Hw) :=
  let recvd_bytes := 0
  -- Set pin to input pullup
  let hw := { hw with pu := clear_bits hw.pu N64_PIN_BIT }
  let hw := { hw with oc := set_bits hw.oc N64_PIN_BIT }
  match get_bytes pin fuel 0 len ref_buff hw with
  | .error e => .error e
  | .ok (ref_buff, hw) => .ok (recvd_bytes, ref_buff, hw)

/-! ## n64_respond and n64_write (n64.c, lines 123-150) -/

/-- The type of a receive routine: buffer and length in, count, buffer and state out. -/
abbrev Receiver := List Nat → Nat → Hw → Except Fault (Nat × List Nat × Hw)

/-- The body of `n64_respond`, with the receive routine it calls as a parameter. Of the
lengths, `sizeof(cmd)` is 3 (an array of three `uint8_t`), `sizeof(n64_status_t)` is the size
of the status object, and `sizeof(n64_report_t)` is 4 (its bit-fields fill whole bytes, two
of width 4 or eight of width 1 per byte, and every member spans four bytes). -/
def n64_respond_with (get : Receiver) (ref_status : n64_status_t) (ref_report : n64_report_t)
    (hw : Hw) : Except Fault (n64_ret_t × Hw) :=
  let hw := { hw with cycles := hw.cycles + 1 }
  let cmd := [0, 0, 0]
  match get cmd 3 hw with
  | .error e => .error e
  | .ok (recvd_bytes, cmd, hw) =>
    if recvd_bytes = 1 ∧ cmd[0]? = some 0x00 then
      -- Identify
      match n64_send ref_status.object ref_status.size hw with
      | .error e => .error e
      | .ok hw => .ok (.RET_ID, hw)
    else if recvd_bytes = 1 ∧ cmd[0]? = some 0x01 then
      -- Poll
      match n64_send ref_report.raw8 4 hw with
      | .error e => .error e
      | .ok hw => .ok (.RET_STATUS, hw)
    else
      .ok (.RET_NONE, hw)

/-- The body of `n64_write`, with the receive routine of its respond cycles and the bytes
that follow `raw8` in `DEF_STATUS` as parameters. -/
def n64_write_with (get : Receiver) (tail : List Nat) (ref_report : n64_report_t) (hw : Hw) :
    Except Fault (Bool × Hw) :=
  match n64_respond_with get (DEF_STATUS tail) ref_report hw with
  | .error e => .error e
  | .ok (ret, hw) =>
    -- Init
    if ret.val = 1 then
      -- Try to answer a following read request
      match n64_respond_with get (DEF_STATUS tail) ref_report hw with
      | .error e => .error e
      | .ok (_, hw) => .ok (false, hw)
    else
      .ok (false, hw)

/-- The function `n64_respond(ref_status, ref_report)`: it receives through `n64_get`. -/
def n64_respond (pin : Nat → Bool) (fuel : Nat) (ref_status : n64_status_t)
    (ref_report : n64_report_t) (hw : Hw) : Except Fault (n64_ret_t × Hw) :=
  n64_respond_with (n64_get pin fuel) ref_status ref_report hw

/-- The function `n64_write(ref_report)`: its respond cycles receive through `n64_get`. -/
def n64_write (pin : Nat → Bool) (fuel : Nat) (tail : List Nat) (ref_report : n64_report_t)
    (hw : Hw) : Except Fault (Bool × Hw) :=
  n64_write_with (n64_get pin fuel) tail ref_report hw

/-! ## The wire format as the specification words it -/

/-- Specification of one bit slot: a 0 bit is 3 us low then 1 us high, a 1 bit is 1 us low
then 3 us high. -/
def spec_bit_pulse (bit : Bool) : List Ev :=
  if bit then [Ev.pin false, Ev.delay 1, Ev.pin true, Ev.delay 3]
  else [Ev.pin false, Ev.delay 3, Ev.pin true, Ev.delay 1]

/-- Specification of one byte: its 8 bits, most significant first. -/
def spec_byte_pulses (data : Nat) : List Ev :=
  [7, 6, 5, 4, 3, 2, 1, 0].flatMap (fun j => spec_bit_pulse (data.testBit j))

/-- Specification of the frame terminator: 2 us low, then released high. -/
def spec_stop_bit : List Ev :=
  [Ev.pin false, Ev.delay 2, Ev.pin true]

/-- Specification of a frame: the bytes in order, then the stop bit. -/
def spec_frame (bytes : List Nat) : List Ev :=
  bytes.flatMap spec_byte_pulses ++ spec_stop_bit

/-- Specification of the bits of a byte in wire order, most significant first. -/
def spec_byte_bits (data : Nat) : List Bool :=
  [7, 6, 5, 4, 3, 2, 1, 0].map (fun j => data.testBit j)

/-! ## Inputs used to exercise the code -/

/-- A state with every register at `0xFF`, no pin read yet and nothing logged. -/
def hw_init : Hw :=
  { port := 0xFF, pu := 0xFF, oc := 0xFF, pos := 0, trace := [], sent := [], cycles := 0 }

/-- The report with no button pressed and both axes centred. -/
def report_idle : n64_report_t :=
  { d_pad_right := false, d_pad_left := false, d_pad_down := false, d_pad_up := false,
    start := false, z := false, b := false, a := false,
    c_right := false, c_left := false, c_down := false, c_up := false,
    r := false, l := false, low1 := false, low0 := false, x_axis := 0, y_axis := 0 }

/-- The report with `a = 1` and every other field 0. -/
def report_a : n64_report_t := { report_idle with a := true }

/-- The pin input that replays the listed levels, one per read, and idles high afterwards. -/
def stream (levels : List Bool) : Nat → Bool :=
  fun k => levels.getD k true

/-- What the reads of `n64_get` see while one bit slot goes by: the line still high, the line
low at the falling edge, and at the sample 1 us later high for a 1 bit, low for a 0 bit. -/
def slot_samples (bit : Bool) : List Bool :=
  [true, false, bit]

/-- The samples seen while the given bytes are on the wire, most significant bit first. -/
def wire_samples (bytes : List Nat) : List Bool :=
  (bytes.flatMap spec_byte_bits).flatMap slot_samples

/-- The samples seen during a stop bit: the line is still low 1 us after its falling edge. -/
def stop_samples : List Bool :=
  slot_samples false

/-- A receive routine that reads nothing and reports `recvd` bytes with buffer `cmd`. -/
def stub_get (recvd : Nat) (cmd : List Nat) : Receiver :=
  fun _ _ hw => .ok (recvd, cmd, hw)

/-- What `n64_get` may do to the machine between two of its states: the three registers and
the logs stay as they are, and the trace grows by requests `mDelayuS(1)` only. -/
def get_only_waits (hw hw1 : Hw) : Prop :=
  hw1.port = hw.port ∧ hw1.pu = hw.pu ∧ hw1.oc = hw.oc ∧ hw1.sent = hw.sent ∧
  hw1.cycles = hw.cycles ∧ ∃ k, hw1.trace = hw.trace ++ List.replicate k (Ev.delay 1)

/-- The state in which `n64_get`, started in `hw_init` with 24 bit slots on the pin, returns:
the pin is an input with pull-up, 72 reads were made and 24 delays of 1 us requested. -/
def hw_after_get : Hw :=
  { port := 0xFF, pu := 0xBF, oc := 0xFF, pos := 72, trace := List.replicate 24 (Ev.delay 1),
    sent := [], cycles := 0 }

/-- The microseconds requested through `mDelayuS` in a trace. -/
def total_delay : List Ev → Nat
  | [] => 0
  | Ev.delay us :: rest => us + total_delay rest
  | Ev.pin _ :: rest => total_delay rest

/-! ## Register lemmas -/

theorem pin_bit_val : N64_PIN_BIT = 64 := by decide

theorem shift_and_one (data j : Nat) : ((data >>> j) &&& 0x01 ≠ 0) ↔ data.testBit j = true := by
  simp [Nat.testBit, Nat.land_comm]

theorem byte_testBit (x y i : Nat)
    (h : ∀ k, k < 8 → x.testBit k = y.testBit k) : (x % 256).testBit i = (y % 256).testBit i := by
  have h256 : (256 : Nat) = 2 ^ 8 := by norm_num
  rw [h256, Nat.testBit_mod_two_pow, Nat.testBit_mod_two_pow]
  by_cases hi : i < 8
  · simp [hi, h i hi]
  · simp [hi]

theorem set_clear_bits (p : Nat) :
    set_bits (clear_bits p N64_PIN_BIT) N64_PIN_BIT = set_bits p N64_PIN_BIT := by
  apply Nat.eq_of_testBit_eq
  intro i
  simp only [set_bits, clear_bits, pin_bit_val]
  apply byte_testBit
  intro k hk
  have h256 : (256 : Nat) = 2 ^ 8 := by norm_num
  rw [h256]
  simp only [Nat.testBit_mod_two_pow, Nat.testBit_or, Nat.testBit_and, Nat.testBit_xor]
  interval_cases k <;> generalize p.testBit _ = b <;> cases b <;> decide

theorem set_set_bits (p : Nat) :
    set_bits (set_bits p N64_PIN_BIT) N64_PIN_BIT = set_bits p N64_PIN_BIT := by
  apply Nat.eq_of_testBit_eq
  intro i
  simp only [set_bits, pin_bit_val]
  apply byte_testBit
  intro k hk
  have h256 : (256 : Nat) = 2 ^ 8 := by norm_num
  rw [h256]
  simp only [Nat.testBit_mod_two_pow, Nat.testBit_or]
  interval_cases k <;> generalize p.testBit _ = b <;> cases b <;> decide

theorem testBit_set_bits (p : Nat) : (set_bits p N64_PIN_BIT).testBit N64_DATA_PIN = true := by
  have h256 : (256 : Nat) = 2 ^ 8 := by norm_num
  simp only [set_bits, pin_bit_val, N64_DATA_PIN]
  rw [h256, Nat.testBit_mod_two_pow, Nat.testBit_or]
  generalize p.testBit _ = b
  cases b <;> decide

theorem testBit_clear_bits (p : Nat) :
    (clear_bits p N64_PIN_BIT).testBit N64_DATA_PIN = false := by
  have h256 : (256 : Nat) = 2 ^ 8 := by norm_num
  simp only [clear_bits, pin_bit_val, N64_DATA_PIN]
  rw [h256, Nat.testBit_mod_two_pow, Nat.testBit_and]
  generalize p.testBit _ = b
  cases b <;> decide

/-! ## n64_send: the trace of a frame -/

/-- One bit slot, entered with the pin released high, emits the specified pulse and leaves
every register as it found it. -/
theorem send_bit_eq (data j p : Nat) (hw : Hw) (hp : hw.port = set_bits p N64_PIN_BIT) :
    send_bit data j hw
      = { hw with trace := hw.trace ++ spec_bit_pulse (data.testBit j) } := by
  have hset : set_bits (clear_bits hw.port N64_PIN_BIT) N64_PIN_BIT = hw.port := by
    rw [set_clear_bits, hp, set_set_bits]
  cases hb : data.testBit j
  · have hz : ¬ ((data >>> j) &&& 0x01 ≠ 0) := by
      rw [shift_and_one, hb]; simp
    simp only [send_bit, write_port, mDelayuS, hset, testBit_clear_bits, if_neg hz,
      spec_bit_pulse, List.append_assoc, List.cons_append, List.nil_append]
    rw [hp, testBit_set_bits]
    simp
  · have hz : (data >>> j) &&& 0x01 ≠ 0 := (shift_and_one data j).2 hb
    simp only [send_bit, write_port, mDelayuS, hset, testBit_clear_bits, if_pos hz,
      spec_bit_pulse, List.append_assoc, List.cons_append, List.nil_append]
    rw [hp, testBit_set_bits]
    simp

/-- Pulses of bits `k-1` down to `0` of `data`. -/
theorem send_bits_eq (data p : Nat) :
    ∀ (k : Nat) (hw : Hw), hw.port = set_bits p N64_PIN_BIT →
      send_bits data k hw
        = { hw with trace := hw.trace ++
              (List.range k).reverse.flatMap (fun j => spec_bit_pulse (data.testBit j)) } := by
  intro k
  induction k with
  | zero => intro hw _; simp [send_bits]
  | succ k ih =>
    intro hw hp
    rw [send_bits, send_bit_eq data k p hw hp, ih _ (by exact hp)]
    simp [List.range_succ, List.append_assoc]

theorem send_byte_eq (data p : Nat) (hw : Hw) (hp : hw.port = set_bits p N64_PIN_BIT) :
    send_bits data 8 hw = { hw with trace := hw.trace ++ spec_byte_pulses data } := by
  rw [send_bits_eq data p 8 hw hp]
  rfl

theorem send_bytes_eq (ref_buff : List Nat) (p : Nat) :
    ∀ (n i : Nat) (hw : Hw), hw.port = set_bits p N64_PIN_BIT → i + n ≤ ref_buff.length →
      send_bytes ref_buff i n hw
        = .ok { hw with trace := hw.trace ++
                  ((ref_buff.drop i).take n).flatMap spec_byte_pulses } := by
  intro n
  induction n with
  | zero => intro i hw _ _; simp [send_bytes]
  | succ n ih =>
    intro i hw hp hlen
    have hi : i < ref_buff.length := by omega
    rw [send_bytes, List.getElem?_eq_getElem hi]
    simp only
    have hd : (ref_buff.drop i).take (n + 1) = ref_buff[i] :: (ref_buff.drop (i + 1)).take n := by
      rw [List.drop_eq_getElem_cons hi, List.take_succ_cons]
    rw [send_byte_eq _ p hw hp, ih (i + 1) _ (by exact hp) (by omega), hd]
    simp [List.append_assoc]

/-- The whole effect of `n64_send` on a buffer of exactly `len` bytes. -/
theorem n64_send_eq (ref_buff : List Nat) (len : Nat) (hw : Hw) (hlen : len = ref_buff.length) :
    n64_send ref_buff len hw
      = .ok { port := set_bits hw.port N64_PIN_BIT,
              pu := set_bits hw.pu N64_PIN_BIT,
              oc := clear_bits hw.oc N64_PIN_BIT,
              pos := hw.pos,
              trace := hw.trace ++ Ev.pin true :: spec_frame ref_buff,
              sent := hw.sent ++ [ref_buff],
              cycles := hw.cycles } := by
  subst hlen
  unfold n64_send
  simp only
  rw [send_bytes_eq ref_buff hw.port ref_buff.length 0 _ rfl (by omega)]
  simp only [write_port, mDelayuS, set_clear_bits, set_set_bits, testBit_set_bits,
    testBit_clear_bits, List.drop_zero, List.take_length, spec_frame, spec_stop_bit,
    List.append_assoc, List.cons_append, List.nil_append]

/-- One bit slot appends the specified pulse to the trace, whatever the state. -/
theorem send_bit_trace (data j : Nat) (hw : Hw) :
    (send_bit data j hw).trace = hw.trace ++ spec_bit_pulse (data.testBit j) := by
  cases hb : data.testBit j
  · have hz : ¬ ((data >>> j) &&& 0x01 ≠ 0) := by
      rw [shift_and_one, hb]; simp
    simp only [send_bit, write_port, mDelayuS, testBit_set_bits, testBit_clear_bits, if_neg hz,
      spec_bit_pulse, List.append_assoc, List.cons_append, List.nil_append]
    simp
  · have hz : (data >>> j) &&& 0x01 ≠ 0 := (shift_and_one data j).2 hb
    simp only [send_bit, write_port, mDelayuS, testBit_set_bits, testBit_clear_bits, if_pos hz,
      spec_bit_pulse, List.append_assoc, List.cons_append, List.nil_append]
    simp

/-- C1: for every buffer of `len` bytes, `0 ≤ len ≤ 255`, `n64_send` returns, and the pin
writes and delays it performs after the set-up write (pin high) are exactly the specified
frame: per byte in buffer order, per bit from bit 7 down to bit 0, low 3 us and high 1 us for a
0 bit, low 1 us and high 3 us for a 1 bit, then the stop bit (low 2 us) and a final write of
high. Moreover in every bit slot the low phase of a 0 bit is 3 times its high phase and the
high phase of a 1 bit is 3 times its low phase. -/
theorem n64_send_wire_format (ref_buff : List Nat) (len : Nat) (hw : Hw)
    (hlen : len = ref_buff.length) (h255 : len ≤ 255) :
    (∃ hw1, n64_send ref_buff len hw = .ok hw1 ∧
      hw1.trace = hw.trace ++ Ev.pin true :: spec_frame ref_buff ∧
      spec_frame ref_buff
        = ref_buff.flatMap
            (fun data => [7, 6, 5, 4, 3, 2, 1, 0].flatMap
              (fun j => if data.testBit j
                then [Ev.pin false, Ev.delay 1, Ev.pin true, Ev.delay 3]
                else [Ev.pin false, Ev.delay 3, Ev.pin true, Ev.delay 1]))
          ++ [Ev.pin false, Ev.delay 2, Ev.pin true]) ∧
    (∀ (data j : Nat) (hw2 : Hw), ∃ lo hi,
      (send_bit data j hw2).trace
        = hw2.trace ++ [Ev.pin false, Ev.delay lo, Ev.pin true, Ev.delay hi] ∧
      (data.testBit j = false → lo = 3 * hi) ∧ (data.testBit j = true → hi = 3 * lo)) := by
  have _ := h255
  refine ⟨⟨_, n64_send_eq ref_buff len hw hlen, rfl, rfl⟩, ?_⟩
  intro data j hw2
  cases hb : data.testBit j
  · exact ⟨3, 1, by rw [send_bit_trace, hb]; rfl, by simp, by simp⟩
  · exact ⟨1, 3, by rw [send_bit_trace, hb]; rfl, by simp, by simp⟩

/-- C1 at the one-byte buffer `0x80`, sent from the initial state. -/
theorem n64_send_wire_format_witness :
    (1 = [0x80].length ∧ 1 ≤ 255) ∧
    ∃ hw1, n64_send [0x80] 1 hw_init = .ok hw1 ∧
      hw1.trace = hw_init.trace ++ Ev.pin true :: spec_frame [0x80] :=
  ⟨⟨rfl, by decide⟩,
    match (n64_send_wire_format [0x80] 1 hw_init rfl (by decide)).1 with
    | ⟨hw1, h1, h2, _⟩ => ⟨hw1, h1, h2⟩⟩

/-! ## n64_get: what it leaves alone -/

theorem get_only_waits_refl (hw : Hw) : get_only_waits hw hw :=
  ⟨rfl, rfl, rfl, rfl, rfl, 0, by simp⟩

theorem get_only_waits_trans {a b c : Hw} (h1 : get_only_waits a b) (h2 : get_only_waits b c) :
    get_only_waits a c := by
  obtain ⟨p1, u1, o1, s1, c1, k1, t1⟩ := h1
  obtain ⟨p2, u2, o2, s2, c2, k2, t2⟩ := h2
  refine ⟨p2.trans p1, u2.trans u1, o2.trans o1, s2.trans s1, c2.trans c1, k1 + k2, ?_⟩
  rw [t2, t1, List.append_assoc, List.replicate_add]

theorem wait_high_only_waits (pin : Nat → Bool) :
    ∀ (fuel : Nat) (hw hw1 : Hw), wait_high pin fuel hw = .ok hw1 → get_only_waits hw hw1 := by
  intro fuel
  induction fuel with
  | zero => intro hw hw1 h; simp [wait_high] at h
  | succ fuel ih =>
    intro hw hw1 h
    simp only [wait_high, read_pin] at h
    split at h
    · have h2 := ih _ _ h
      exact get_only_waits_trans ⟨rfl, rfl, rfl, rfl, rfl, 0, by simp⟩ h2
    · cases h
      exact ⟨rfl, rfl, rfl, rfl, rfl, 0, by simp⟩

theorem wait_low_only_waits (pin : Nat → Bool) :
    ∀ (fuel : Nat) (hw hw1 : Hw), wait_low pin fuel hw = .ok hw1 → get_only_waits hw hw1 := by
  intro fuel
  induction fuel with
  | zero => intro hw hw1 h; simp [wait_low] at h
  | succ fuel ih =>
    intro hw hw1 h
    simp only [wait_low, read_pin] at h
    split at h
    · have h2 := ih _ _ h
      exact get_only_waits_trans ⟨rfl, rfl, rfl, rfl, rfl, 0, by simp⟩ h2
    · cases h
      exact ⟨rfl, rfl, rfl, rfl, rfl, 0, by simp⟩

theorem get_bits_only_waits (pin : Nat → Bool) (fuel i : Nat) :
    ∀ (n j : Nat) (buf : List Nat) (hw : Hw) (buf1 : List Nat) (hw1 : Hw),
      get_bits pin fuel i j n buf hw = .ok (buf1, hw1) → get_only_waits hw hw1 := by
  intro n
  induction n with
  | zero =>
    intro j buf hw buf1 hw1 h
    simp only [get_bits, Except.ok.injEq, Prod.mk.injEq] at h
    rw [← h.2]
    exact get_only_waits_refl hw
  | succ n ih =>
    intro j buf hw buf1 hw1 h
    rw [get_bits] at h
    cases hwl : wait_low pin fuel hw with
    | error e => rw [hwl] at h; simp at h
    | ok hwa =>
      rw [hwl] at h
      have hA := wait_low_only_waits pin fuel hw hwa hwl
      have hB : get_only_waits hwa (read_pin pin (mDelayuS 1 hwa)).2 :=
        ⟨rfl, rfl, rfl, rfl, rfl, 1, rfl⟩
      simp only at h
      split at h
      · split at h
        · simp at h
        · exact get_only_waits_trans hA (get_only_waits_trans hB (ih _ _ _ _ _ h))
      · split at h
        · simp at h
        · exact get_only_waits_trans hA (get_only_waits_trans hB (ih _ _ _ _ _ h))

theorem get_bytes_only_waits (pin : Nat → Bool) (fuel : Nat) :
    ∀ (n i : Nat) (buf : List Nat) (hw : Hw) (buf1 : List Nat) (hw1 : Hw),
      get_bytes pin fuel i n buf hw = .ok (buf1, hw1) → get_only_waits hw hw1 := by
  intro n
  induction n with
  | zero =>
    intro i buf hw buf1 hw1 h
    simp only [get_bytes, Except.ok.injEq, Prod.mk.injEq] at h
    rw [← h.2]
    exact get_only_waits_refl hw
  | succ n ih =>
    intro i buf hw buf1 hw1 h
    rw [get_bytes] at h
    cases hwh : wait_high pin fuel hw with
    | error e => rw [hwh] at h; simp at h
    | ok hwa =>
      rw [hwh] at h
      have hA := wait_high_only_waits pin fuel hw hwa hwh
      simp only at h
      cases hgb : get_bits pin fuel i 0 8 buf hwa with
      | error e => rw [hgb] at h; simp at h
      | ok r =>
        obtain ⟨bufb, hwb⟩ := r
        rw [hgb] at h
        have hB := get_bits_only_waits pin fuel i 8 0 buf hwa bufb hwb hgb
        exact get_only_waits_trans hA (get_only_waits_trans hB (ih _ _ _ _ _ h))

/-- Whenever `n64_get` returns: its result is 0, the pin is configured as an input with
pull-up, the data port and the logs are untouched, and only `mDelayuS(1)` was requested. -/
theorem n64_get_frame (pin : Nat → Bool) (fuel : Nat) (buf : List Nat) (len : Nat) (hw : Hw)
    (recvd : Nat) (buf1 : List Nat) (hw1 : Hw)
    (h : n64_get pin fuel buf len hw = .ok (recvd, buf1, hw1)) :
    recvd = 0 ∧ hw1.port = hw.port ∧ hw1.pu = clear_bits hw.pu N64_PIN_BIT ∧
    hw1.oc = set_bits hw.oc N64_PIN_BIT ∧ hw1.sent = hw.sent ∧ hw1.cycles = hw.cycles ∧
    ∃ k, hw1.trace = hw.trace ++ List.replicate k (Ev.delay 1) := by
  unfold n64_get at h
  simp only at h
  split at h
  · simp at h
  · rename_i bufb hwb hgb
    simp only [Except.ok.injEq, Prod.mk.injEq] at h
    obtain ⟨h0, _, h2⟩ := h
    subst h2
    obtain ⟨hp, hu, ho, hs, hc, k, ht⟩ := get_bytes_only_waits pin fuel len 0 buf _ bufb hwb hgb
    exact ⟨h0.symm, hp, hu, ho, hs, hc, k, ht⟩

/-! ## n64_respond and n64_write -/

/-- The size of a status object is the number of its bytes. -/
theorem status_size_eq (s : n64_status_t) : s.size = s.object.length := by
  simp [n64_status_t.size, n64_status_t.object, n64_status_t.raw8]
  omega

/-- With `n64_get` as its receive routine, a respond cycle that returns has outcome `RET_NONE`,
has called `n64_send` not at all, has not written the data port and has only waited. -/
theorem n64_respond_returns_none (pin : Nat → Bool) (fuel : Nat) (status : n64_status_t)
    (report : n64_report_t) (hw : Hw) (ret : n64_ret_t) (hw2 : Hw)
    (h : n64_respond pin fuel status report hw = .ok (ret, hw2)) :
    ret = .RET_NONE ∧ hw2.sent = hw.sent ∧ hw2.port = hw.port ∧ hw2.cycles = hw.cycles + 1 ∧
    ∃ k, hw2.trace = hw.trace ++ List.replicate k (Ev.delay 1) := by
  unfold n64_respond n64_respond_with at h
  simp only at h
  cases hg : n64_get pin fuel [0, 0, 0] 3 { hw with cycles := hw.cycles + 1 } with
  | error e => rw [hg] at h; simp at h
  | ok r =>
    obtain ⟨recvd, cmd, hw1⟩ := r
    rw [hg] at h
    obtain ⟨h0, hp, _, _, hs, hc, k, ht⟩ := n64_get_frame pin fuel _ _ _ _ _ _ hg
    subst h0
    simp only [show ¬ (0 = 1) by decide, false_and, if_false, Except.ok.injEq,
      Prod.mk.injEq] at h
    obtain ⟨h1, h2⟩ := h
    subst h1 h2
    exact ⟨rfl, hs, hp, hc, k, ht⟩

/-- The frame of a byte list is 8 bit pulses per byte followed by the stop bit. -/
theorem spec_frame_bits (bytes : List Nat) :
    spec_frame bytes = (bytes.flatMap spec_byte_bits).flatMap spec_bit_pulse ++ spec_stop_bit ∧
    (bytes.flatMap spec_byte_bits).length = 8 * bytes.length := by
  induction bytes with
  | nil => exact ⟨rfl, rfl⟩
  | cons b bs ih =>
    constructor
    · have h1 := ih.1
      simp only [spec_frame, List.append_cancel_right_eq] at h1
      simp only [spec_frame, List.flatMap_cons, List.flatMap_append, h1]
      rfl
    · simp only [List.flatMap_cons, List.length_append, ih.2, List.length_cons]
      simp only [spec_byte_bits, List.length_map, List.length_cons, List.length_nil]
      omega

/-- A receive routine that leaves the cycle counter alone makes a respond cycle count once. -/
theorem n64_respond_with_cycles (get : Receiver) (status : n64_status_t)
    (report : n64_report_t) (hw : Hw) (ret : n64_ret_t) (hw2 : Hw)
    (hcyc : ∀ buf len h r, get buf len h = .ok r → r.2.2.cycles = h.cycles)
    (h : n64_respond_with get status report hw = .ok (ret, hw2)) :
    hw2.cycles = hw.cycles + 1 := by
  unfold n64_respond_with at h
  simp only at h
  cases hg : get [0, 0, 0] 3 { hw with cycles := hw.cycles + 1 } with
  | error e => rw [hg] at h; simp at h
  | ok r =>
    obtain ⟨recvd, cmd, hw1⟩ := r
    rw [hg] at h
    have hc : hw1.cycles = hw.cycles + 1 := hcyc _ _ _ _ hg
    simp only at h
    split_ifs at h
    · rw [n64_send_eq status.object status.size hw1 (status_size_eq status)] at h
      simp only [Except.ok.injEq, Prod.mk.injEq] at h
      rw [← h.2]; exact hc
    · rw [n64_send_eq report.raw8 4 hw1 rfl] at h
      simp only [Except.ok.injEq, Prod.mk.injEq] at h
      rw [← h.2]; exact hc
    · simp only [Except.ok.injEq, Prod.mk.injEq] at h
      rw [← h.2]; exact hc

/-! ## The claims about the command dispatcher and the receive path -/

/-- C2 (Identify), evaluated on the code. First input: the pin shows the command byte `0x00`
(eight 0 bits, each sampled low) and its stop bit; `n64_get` stores the bit of slot `j` in
`cmd[j]` and at the fourth slot indexes the 3-byte `cmd` at 3, no frame is sent. Second input:
all 24 samples high, on which `n64_get` returns with `cmd[0] = 0x00`; the count it returns is
0, so the cycle ends with `RET_NONE`, no call of `n64_send` and the data port unwritten. Both
hold whatever bytes follow `raw8` in `DEF_STATUS`. -/
theorem n64_respond_identify_unanswered (tail : List Nat) :
    n64_respond (stream (wire_samples [0x00] ++ stop_samples)) 4 (DEF_STATUS tail) report_idle
        hw_init = .error (.outOfBounds 3) ∧
    (n64_get (stream (wire_samples [0xFF, 0xFF, 0xFF])) 4 [0, 0, 0] 3
        { hw_init with cycles := 1 }).map (fun r => (r.1, r.2.1)) = .ok (0, [0x00, 0, 0]) ∧
    (n64_respond (stream (wire_samples [0xFF, 0xFF, 0xFF])) 4 (DEF_STATUS tail) report_idle
        hw_init).map (fun r => (r.1, r.2.sent, r.2.port)) = .ok (.RET_NONE, [], 0xFF) :=
  ⟨rfl, rfl, rfl⟩

/-- C3 (Poll), evaluated on the code for the report with `a = 1`, whose bytes are
`0x80, 0x00, 0x00, 0x00`. First input: the pin shows the command byte `0x01` and its stop bit;
`n64_get` indexes the 3-byte `cmd` at 3 in the fourth slot, no frame is sent. Second input:
samples on which `n64_get` returns with `cmd[0] = 0x01`; the count it returns is 0, so the
cycle ends with `RET_NONE`, no call of `n64_send` and the data port unwritten. Both hold
whatever bytes follow `raw8` in `DEF_STATUS`. -/
theorem n64_respond_poll_unanswered (tail : List Nat) :
    report_a.raw8 = [0x80, 0x00, 0x00, 0x00] ∧
    n64_respond (stream (wire_samples [0x01] ++ stop_samples)) 4 (DEF_STATUS tail) report_a
        hw_init = .error (.outOfBounds 3) ∧
    (n64_get (stream (wire_samples [0x7F, 0xFF, 0xFF])) 4 [0, 0, 0] 3
        { hw_init with cycles := 1 }).map (fun r => (r.1, r.2.1)) = .ok (0, [0x01, 0, 0]) ∧
    (n64_respond (stream (wire_samples [0x7F, 0xFF, 0xFF])) 4 (DEF_STATUS tail) report_a
        hw_init).map (fun r => (r.1, r.2.sent, r.2.port)) = .ok (.RET_NONE, [], 0xFF) :=
  ⟨rfl, rfl, rfl, rfl⟩

/-- C4 (silence on anything else): whatever the receive routine, when it returns a byte count
other than 1, or a first byte that is neither `0x00` nor `0x01`, the respond cycle returns
`RET_NONE` in exactly the state the receive routine left: no call of `n64_send`, no write to
the data port. And with `n64_get` as the receive routine every respond cycle that returns has
outcome `RET_NONE`, has sent nothing, has not written the data port (so never drove the pin
low) and has added only delay requests to the trace. -/
theorem n64_respond_silence (get : Receiver) (status : n64_status_t) (report : n64_report_t)
    (hw : Hw) (recvd : Nat) (cmd : List Nat) (hw1 : Hw)
    (hget : get [0, 0, 0] 3 { hw with cycles := hw.cycles + 1 } = .ok (recvd, cmd, hw1))
    (hcmd : recvd ≠ 1 ∨ (cmd[0]? ≠ some 0x00 ∧ cmd[0]? ≠ some 0x01)) :
    n64_respond_with get status report hw = .ok (.RET_NONE, hw1) ∧
    (∀ (pin : Nat → Bool) (fuel : Nat) (ret : n64_ret_t) (hw2 : Hw),
      n64_respond pin fuel status report hw = .ok (ret, hw2) →
        ret = .RET_NONE ∧ hw2.sent = hw.sent ∧ hw2.port = hw.port ∧
        ∃ k, hw2.trace = hw.trace ++ List.replicate k (Ev.delay 1)) := by
  constructor
  · unfold n64_respond_with
    simp only [hget]
    rcases hcmd with h1 | ⟨h0, h1⟩
    · simp [h1]
    · simp [h0, h1]
  · intro pin fuel ret hw2 h
    obtain ⟨hr, hs, hp, _, hk⟩ := n64_respond_returns_none pin fuel status report hw ret hw2 h
    exact ⟨hr, hs, hp, hk⟩

/-- C4 at the command byte `0xFF` reported as a one-byte command. -/
theorem n64_respond_silence_witness :
    (stub_get 1 [0xFF, 0, 0] [0, 0, 0] 3 { hw_init with cycles := hw_init.cycles + 1 }
        = .ok (1, [0xFF, 0, 0], { hw_init with cycles := 1 }) ∧
      ((1 : Nat) ≠ 1 ∨ (([0xFF, 0, 0] : List Nat)[0]? ≠ some 0x00 ∧
        ([0xFF, 0, 0] : List Nat)[0]? ≠ some 0x01))) ∧
    n64_respond_with (stub_get 1 [0xFF, 0, 0]) (DEF_STATUS []) report_idle hw_init
      = .ok (.RET_NONE, { hw_init with cycles := 1 }) :=
  ⟨⟨rfl, Or.inr ⟨by decide, by decide⟩⟩,
    (n64_respond_silence (stub_get 1 [0xFF, 0, 0]) (DEF_STATUS []) report_idle hw_init
      1 [0xFF, 0, 0] { hw_init with cycles := 1 } rfl (Or.inr ⟨by decide, by decide⟩)).1⟩

/-- C5 (round trip), evaluated on the code at the one-byte sequence `0xFF`: `n64_send` emits
eight 1-bit pulses for it, and when those eight slots (each sampled high) are presented to
`n64_get` with a zeroed one-byte buffer, `n64_get` returns with the buffer holding `0x00`,
not `0xFF`. -/
theorem n64_get_round_trip_fails :
    (n64_send [0xFF] 1 hw_init).map (fun r => r.trace)
      = .ok (Ev.pin true :: ((List.replicate 8 true).flatMap spec_bit_pulse ++ spec_stop_bit)) ∧
    wire_samples [0xFF] = (List.replicate 8 true).flatMap slot_samples ∧
    (n64_get (stream (wire_samples [0xFF])) 4 [0] 1 hw_init).map (fun r => r.2.1)
      = .ok [0x00] :=
  ⟨rfl, rfl, rfl⟩

/-- C6 (sample polarity), evaluated on the code with a one-byte buffer. When all eight
samples are high and the byte starts as `0xFF`, every bit is stored as 0: the byte ends as
`0x00`. When the first sample is low, the other seven high and the byte starts as `0x00`,
the low sample is stored as a 1 and the high ones as 0: the byte ends as `0x01`. -/
theorem n64_get_polarity_inverted :
    (n64_get (stream ((List.replicate 8 true).flatMap slot_samples)) 4 [0xFF] 1
        hw_init).map (fun r => r.2.1) = .ok [0x00] ∧
    (n64_get (stream (slot_samples false ++ (List.replicate 7 true).flatMap slot_samples)) 4
        [0x00] 1 hw_init).map (fun r => r.2.1) = .ok [0x01] :=
  ⟨rfl, rfl⟩

/-- C7 (bit placement), evaluated on the code with the zeroed 3-byte buffer. When only the
second sample (`k = 1`) of the third byte (`i = 2`) is low, the buffer ends as `0, 2, 0`: the
bit went to bit 1 of byte 1 and byte 2 is unchanged. When only the first sample (`k = 0`) of
the first byte is low, the buffer ends as `1, 0, 0`: the first bit received is bit 0, not
bit 7. -/
theorem n64_get_bit_misplaced :
    (n64_get (stream ((List.replicate 17 true ++ [false] ++ List.replicate 6 true).flatMap
        slot_samples)) 4 [0, 0, 0] 3 hw_init).map (fun r => r.2.1) = .ok [0, 2, 0] ∧
    (n64_get (stream (([false] ++ List.replicate 23 true).flatMap
        slot_samples)) 4 [0, 0, 0] 3 hw_init).map (fun r => r.2.1) = .ok [1, 0, 0] :=
  ⟨rfl, rfl⟩

/-- C8 (bytes read), evaluated on the code: with `len = 3` and 24 bit slots on the pin,
`n64_get` samples all 24 (72 pin reads: three per slot) and returns 0, not 3. -/
theorem n64_get_returns_zero :
    (n64_get (stream ((List.replicate 24 true).flatMap slot_samples)) 4 [0, 0, 0] 3
        hw_init).map (fun r => (r.1, r.2.2.pos)) = .ok (0, 72) :=
  rfl

/-- C10 (second cycle of `n64_write`): whatever the receive routine (provided it leaves the
cycle counter alone), the layout of `DEF_STATUS` and the report, `n64_write` starts one
respond cycle; if that cycle
fails so does `n64_write`; if it returns with `RET_ID` a second cycle is run from the state
it left and `n64_write` returns after it, two cycles in all; if it returns with any other
outcome `n64_write` returns at once in the state the first cycle left, one cycle in all. -/
theorem n64_write_second_cycle (get : Receiver) (tail : List Nat) (report : n64_report_t)
    (hw : Hw)
    (hcyc : ∀ buf len h r, get buf len h = .ok r → r.2.2.cycles = h.cycles) :
    match n64_respond_with get (DEF_STATUS tail) report hw with
    | .error e => n64_write_with get tail report hw = .error e
    | .ok (ret1, hw1) =>
      hw1.cycles = hw.cycles + 1 ∧
      (ret1 = .RET_ID →
        match n64_respond_with get (DEF_STATUS tail) report hw1 with
        | .error e => n64_write_with get tail report hw = .error e
        | .ok (_, hw2) =>
          n64_write_with get tail report hw = .ok (false, hw2) ∧ hw2.cycles = hw.cycles + 2) ∧
      (ret1 ≠ .RET_ID → n64_write_with get tail report hw = .ok (false, hw1)) := by
  cases h1 : n64_respond_with get (DEF_STATUS tail) report hw with
  | error e => simp [n64_write_with, h1]
  | ok r =>
    obtain ⟨ret1, hw1⟩ := r
    have hc1 := n64_respond_with_cycles get (DEF_STATUS tail) report hw ret1 hw1 hcyc h1
    refine ⟨hc1, ?_, ?_⟩
    · intro hid
      subst hid
      cases h2 : n64_respond_with get (DEF_STATUS tail) report hw1 with
      | error e => simp [n64_write_with, h1, h2, n64_ret_t.val]
      | ok r2 =>
        obtain ⟨ret2, hw2⟩ := r2
        have hc2 := n64_respond_with_cycles get (DEF_STATUS tail) report hw1 ret2 hw2 hcyc h2
        refine ⟨by simp [n64_write_with, h1, h2, n64_ret_t.val], ?_⟩
        rw [hc2, hc1]
    · intro hne
      have hv : ret1.val ≠ 1 := by
        cases ret1 <;> simp [n64_ret_t.val] at hne ⊢
      simp [n64_write_with, h1, hv]

/-- C10 with a receive routine that reports the one-byte command `0x00` every time: the first
cycle answers Identify, so a second cycle runs and the counter ends at 2. -/
theorem n64_write_second_cycle_witness :
    (∀ buf len h r, stub_get 1 [0x00, 0, 0] buf len h = .ok r → r.2.2.cycles = h.cycles) ∧
    ∃ hw2, n64_write_with (stub_get 1 [0x00, 0, 0]) [] report_idle hw_init = .ok (false, hw2) ∧
      hw2.cycles = hw_init.cycles + 2 :=
  have hstub : ∀ buf len h r,
      stub_get 1 [0x00, 0, 0] buf len h = .ok r → r.2.2.cycles = h.cycles := by
    intro buf len h r hr
    simp only [stub_get, Except.ok.injEq] at hr
    rw [← hr]
  ⟨hstub, _,
    (n64_write_second_cycle (stub_get 1 [0x00, 0, 0]) [] report_idle hw_init hstub).2.1 rfl⟩

/-! ## The claims about the outcomes of `n64_respond` and `n64_write` -/

/-- With `n64_get` as the receive routine, a call of `n64_write` that returns has returned
`false` after exactly its first respond cycle, whose outcome was `RET_NONE`. -/
theorem n64_write_first_cycle (pin : Nat → Bool) (fuel : Nat) (tail : List Nat)
    (report : n64_report_t) (hw : Hw)
    (b : Bool) (hw1 : Hw) (h : n64_write pin fuel tail report hw = .ok (b, hw1)) :
    b = false ∧ n64_respond pin fuel (DEF_STATUS tail) report hw = .ok (.RET_NONE, hw1) := by
  unfold n64_write n64_write_with at h
  cases h1 : n64_respond_with (n64_get pin fuel) (DEF_STATUS tail) report hw with
  | error e => rw [h1] at h; simp at h
  | ok r =>
    obtain ⟨ret, hwa⟩ := r
    rw [h1] at h
    have hr := (n64_respond_returns_none pin fuel (DEF_STATUS tail) report hw ret hwa h1).1
    subst hr
    simp only [n64_ret_t.val, show ¬ (0 = 1) by decide, if_false, Except.ok.injEq,
      Prod.mk.injEq] at h
    obtain ⟨hb, hh⟩ := h
    subst hb hh
    exact ⟨rfl, h1⟩

/-- C11: whatever the receive routine, the layout of `DEF_STATUS`, the report and the state,
a call of `n64_write` that returns has returned `false`, whether its respond cycles answered or not; in particular so
with `n64_get` as the receive routine, for every pin input and every spin budget. -/
theorem n64_write_returns_false (get : Receiver) (tail : List Nat) (report : n64_report_t)
    (hw : Hw)
    (b : Bool) (hw1 : Hw) (h : n64_write_with get tail report hw = .ok (b, hw1)) :
    b = false ∧
    (∀ (pin : Nat → Bool) (fuel : Nat) (b2 : Bool) (hw2 : Hw),
      n64_write pin fuel tail report hw = .ok (b2, hw2) → b2 = false) := by
  constructor
  · unfold n64_write_with at h
    cases h1 : n64_respond_with get (DEF_STATUS tail) report hw with
    | error e => rw [h1] at h; simp at h
    | ok r =>
      obtain ⟨ret, hwa⟩ := r
      rw [h1] at h
      simp only at h
      split_ifs at h
      · cases h2 : n64_respond_with get (DEF_STATUS tail) report hwa with
        | error e => rw [h2] at h; simp at h
        | ok r2 =>
          rw [h2] at h
          simp only [Except.ok.injEq, Prod.mk.injEq] at h
          exact h.1.symm
      · simp only [Except.ok.injEq, Prod.mk.injEq] at h
        exact h.1.symm
  · intro pin fuel b2 hw2 h2
    exact (n64_write_first_cycle pin fuel tail report hw b2 hw2 h2).1

set_option maxRecDepth 10000 in
/-- C11 where both respond cycles answer Identify: `n64_write` still returns `false`. -/
theorem n64_write_returns_false_witness :
    n64_write_with (stub_get 1 [0x00, 0, 0]) [] report_idle hw_init
      = .ok (false,
          { port := 0xFF, pu := 0xFF, oc := 0xBF, pos := 0,
            trace := (Ev.pin true :: spec_frame [0x05, 0x00, 0x02]) ++
              (Ev.pin true :: spec_frame [0x05, 0x00, 0x02]),
            sent := [[0x05, 0x00, 0x02], [0x05, 0x00, 0x02]], cycles := 2 }) ∧
    false = false :=
  ⟨rfl, (n64_write_returns_false (stub_get 1 [0x00, 0, 0]) [] report_idle hw_init false _ rfl).1⟩

/-- C13: whatever the receive routine, the status, the report and the state, a respond cycle
that returns has outcome `RET_NONE`, `RET_ID` or `RET_STATUS`; it is neither
`RET_READ_EXP_BUS` nor `RET_WRITE_EXP_BUS`. The function `n64_respond` is the case where the
receive routine is `n64_get`. -/
theorem n64_respond_outcomes (get : Receiver) (status : n64_status_t) (report : n64_report_t)
    (hw : Hw) (ret : n64_ret_t) (hw2 : Hw)
    (h : n64_respond_with get status report hw = .ok (ret, hw2)) :
    (ret = .RET_NONE ∨ ret = .RET_ID ∨ ret = .RET_STATUS) ∧
    ret ≠ .RET_READ_EXP_BUS ∧ ret ≠ .RET_WRITE_EXP_BUS ∧
    (∀ (pin : Nat → Bool) (fuel : Nat) (ret2 : n64_ret_t) (hw3 : Hw),
      n64_respond pin fuel status report hw = .ok (ret2, hw3) →
        ret2 ≠ .RET_READ_EXP_BUS ∧ ret2 ≠ .RET_WRITE_EXP_BUS) := by
  have key : ∀ (g : Receiver) (r : n64_ret_t) (hw4 : Hw),
      n64_respond_with g status report hw = .ok (r, hw4) →
        r = .RET_NONE ∨ r = .RET_ID ∨ r = .RET_STATUS := by
    intro g r hw4 hg
    unfold n64_respond_with at hg
    simp only at hg
    cases hgg : g [0, 0, 0] 3 { hw with cycles := hw.cycles + 1 } with
    | error e => rw [hgg] at hg; simp at hg
    | ok x =>
      obtain ⟨recvd, cmd, hwa⟩ := x
      rw [hgg] at hg
      simp only at hg
      split_ifs at hg
      · rw [n64_send_eq status.object status.size hwa (status_size_eq status)] at hg
        simp only [Except.ok.injEq, Prod.mk.injEq] at hg
        exact Or.inr (Or.inl hg.1.symm)
      · rw [n64_send_eq report.raw8 4 hwa rfl] at hg
        simp only [Except.ok.injEq, Prod.mk.injEq] at hg
        exact Or.inr (Or.inr hg.1.symm)
      · simp only [Except.ok.injEq, Prod.mk.injEq] at hg
        exact Or.inl hg.1.symm
  have excl : ∀ r : n64_ret_t, (r = .RET_NONE ∨ r = .RET_ID ∨ r = .RET_STATUS) →
      r ≠ .RET_READ_EXP_BUS ∧ r ≠ .RET_WRITE_EXP_BUS := by
    intro r hr
    rcases hr with hr | hr | hr <;> subst hr <;> exact ⟨by decide, by decide⟩
  refine ⟨key get ret hw2 h, (excl ret (key get ret hw2 h)).1, (excl ret (key get ret hw2 h)).2, ?_⟩
  intro pin fuel ret2 hw3 h3
  exact excl ret2 (key (n64_get pin fuel) ret2 hw3 h3)

set_option maxRecDepth 10000 in
/-- C13 at a respond cycle that answers Poll for the report with `a = 1`. -/
theorem n64_respond_outcomes_witness :
    n64_respond_with (stub_get 1 [0x01, 0, 0]) (DEF_STATUS []) report_a hw_init
      = .ok (.RET_STATUS,
          { port := 0xFF, pu := 0xFF, oc := 0xBF, pos := 0,
            trace := Ev.pin true :: spec_frame [0x80, 0x00, 0x00, 0x00],
            sent := [[0x80, 0x00, 0x00, 0x00]], cycles := 1 }) ∧
    (n64_ret_t.RET_STATUS = .RET_NONE ∨ n64_ret_t.RET_STATUS = .RET_ID ∨
      n64_ret_t.RET_STATUS = .RET_STATUS) :=
  ⟨rfl, (n64_respond_outcomes (stub_get 1 [0x01, 0, 0]) (DEF_STATUS []) report_a hw_init
    .RET_STATUS _ rfl).1⟩

/-- C14: for every report, pin input, spin budget and layout of `DEF_STATUS`, a call of
`n64_get` that returns has returned 0, a call of `n64_respond` that returns has returned `RET_NONE` without calling
`n64_send`, and a call of `n64_write` that returns has run exactly one respond cycle, has not
called `n64_send`, has left the data port unwritten and has put nothing on the line but
requests for 1 us delays: no command is answered. -/
theorem n64_library_never_answers (pin : Nat → Bool) (fuel : Nat) (tail : List Nat)
    (report : n64_report_t) (hw : Hw) (b : Bool) (hw1 : Hw) (h : n64_write pin fuel tail report hw = .ok (b, hw1)) :
    (∀ (buf : List Nat) (len : Nat) (hw0 : Hw) (recvd : Nat) (buf1 : List Nat) (hw2 : Hw),
      n64_get pin fuel buf len hw0 = .ok (recvd, buf1, hw2) → recvd = 0) ∧
    (∀ (status : n64_status_t) (hw0 : Hw) (ret : n64_ret_t) (hw2 : Hw),
      n64_respond pin fuel status report hw0 = .ok (ret, hw2) →
        ret = .RET_NONE ∧ hw2.sent = hw0.sent) ∧
    hw1.cycles = hw.cycles + 1 ∧ hw1.sent = hw.sent ∧ hw1.port = hw.port ∧
    ∃ k, hw1.trace = hw.trace ++ List.replicate k (Ev.delay 1) := by
  refine ⟨?_, ?_, ?_⟩
  · intro buf len hw0 recvd buf1 hw2 hg
    exact (n64_get_frame pin fuel buf len hw0 recvd buf1 hw2 hg).1
  · intro status hw0 ret hw2 hr
    obtain ⟨h1, h2, _⟩ := n64_respond_returns_none pin fuel status report hw0 ret hw2 hr
    exact ⟨h1, h2⟩
  · have h1 := (n64_write_first_cycle pin fuel tail report hw b hw1 h).2
    obtain ⟨_, hs, hp, hc, hk⟩ := n64_respond_returns_none pin fuel (DEF_STATUS tail) report hw _ hw1 h1
    exact ⟨hc, hs, hp, hk⟩

/-- C14 on a pin input with 24 bit slots, all sampled high: `n64_write` returns after one
cycle, nothing sent, the data port still `0xFF`. -/
theorem n64_library_never_answers_witness :
    n64_write (stream ((List.replicate 24 true).flatMap slot_samples)) 4 [] report_idle hw_init
      = .ok (false, { hw_after_get with cycles := 1 }) ∧
    ({ hw_after_get with cycles := 1 } : Hw).cycles = hw_init.cycles + 1 ∧
    ({ hw_after_get with cycles := 1 } : Hw).sent = hw_init.sent ∧
    ({ hw_after_get with cycles := 1 } : Hw).port = hw_init.port :=
  have h := n64_library_never_answers (stream ((List.replicate 24 true).flatMap slot_samples))
    4 [] report_idle hw_init false { hw_after_get with cycles := 1 } rfl
  ⟨rfl, h.2.2.1, h.2.2.2.1, h.2.2.2.2.1⟩

/-! ## The bit rate of `n64_send` -/

theorem total_delay_append (xs ys : List Ev) :
    total_delay (xs ++ ys) = total_delay xs + total_delay ys := by
  induction xs with
  | nil => simp [total_delay]
  | cons e es ih =>
    cases e with
    | pin level =>
      rw [List.cons_append]
      simp only [total_delay]
      exact ih
    | delay us =>
      rw [List.cons_append]
      simp only [total_delay]
      rw [ih, Nat.add_assoc]

theorem total_delay_bit_pulses (bits : List Bool) :
    total_delay (bits.flatMap spec_bit_pulse) = 4 * bits.length := by
  induction bits with
  | nil => rfl
  | cons b bs ih =>
    have hb : total_delay (spec_bit_pulse b) = 4 := by cases b <;> rfl
    rw [List.flatMap_cons, total_delay_append, ih, hb, List.length_cons]
    omega

theorem total_delay_frame (bytes : List Nat) :
    total_delay (spec_frame bytes) = 32 * bytes.length + 2 := by
  rw [(spec_frame_bits bytes).1, total_delay_append, total_delay_bit_pulses,
    (spec_frame_bits bytes).2]
  have hs : total_delay spec_stop_bit = 2 := rfl
  rw [hs]
  omega

/-- C12 (constant bit rate): in every bit slot, whatever the byte value and the bit position,
the two delays requested sum to 4 us; and for every buffer of `len` bytes, `0 ≤ len ≤ 255`,
`n64_send` returns having requested `32 * len + 2` us of delay in all, whatever the bytes. -/
theorem n64_send_constant_rate (ref_buff : List Nat) (len : Nat) (hw : Hw)
    (hlen : len = ref_buff.length) (h255 : len ≤ 255) :
    (∀ (data j : Nat) (hw2 : Hw), ∃ lo hi,
      (send_bit data j hw2).trace
        = hw2.trace ++ [Ev.pin false, Ev.delay lo, Ev.pin true, Ev.delay hi] ∧
      lo + hi = 4) ∧
    ∃ hw1, n64_send ref_buff len hw = .ok hw1 ∧
      total_delay hw1.trace = total_delay hw.trace + (32 * len + 2) := by
  have _ := h255
  constructor
  · intro data j hw2
    cases hb : data.testBit j
    · exact ⟨3, 1, by rw [send_bit_trace, hb]; rfl, rfl⟩
    · exact ⟨1, 3, by rw [send_bit_trace, hb]; rfl, rfl⟩
  · refine ⟨_, n64_send_eq ref_buff len hw hlen, ?_⟩
    have hc : total_delay (Ev.pin true :: spec_frame ref_buff)
        = total_delay (spec_frame ref_buff) := rfl
    simp only [total_delay_append, hc, total_delay_frame, hlen]

/-- C12 at the two-byte buffer `0x00, 0xFF`: 66 us of delay in all. -/
theorem n64_send_constant_rate_witness :
    (2 = [0x00, 0xFF].length ∧ 2 ≤ 255) ∧
    ∃ hw1, n64_send [0x00, 0xFF] 2 hw_init = .ok hw1 ∧
      total_delay hw1.trace = total_delay hw_init.trace + (32 * 2 + 2) :=
  ⟨⟨rfl, by decide⟩, (n64_send_constant_rate [0x00, 0xFF] 2 hw_init rfl (by decide)).2⟩

/-! ## Buffer bounds and blocking of `n64_get` -/

/-- C15 (buffer bounds), evaluated on the code. With the 3-byte buffer and `len = 3`, when the
first three samples are high and the fourth is low, `n64_get` indexes the buffer at 3; the
same happens when it is called from `n64_respond`. With a one-byte buffer and `len = 1`, when
the first sample is high and the second low, it indexes the buffer at 1. The layout of
`DEF_STATUS` plays no part. -/
theorem n64_get_out_of_bounds (tail : List Nat) :
    n64_get (stream ([true, true, true, false].flatMap slot_samples)) 4 [0, 0, 0] 3 hw_init
      = .error (.outOfBounds 3) ∧
    n64_respond (stream ([true, true, true, false].flatMap slot_samples)) 4 (DEF_STATUS tail)
        report_idle hw_init = .error (.outOfBounds 3) ∧
    n64_get (stream ([true, false].flatMap slot_samples)) 4 [0] 1 hw_init
      = .error (.outOfBounds 1) :=
  ⟨rfl, rfl, rfl⟩

theorem wait_low_always_high (pin : Nat → Bool) (hpin : ∀ k, pin k = true) :
    ∀ (fuel : Nat) (hw : Hw), wait_low pin fuel hw = .error .outOfFuel := by
  intro fuel
  induction fuel with
  | zero => intro hw; rfl
  | succ fuel ih =>
    intro hw
    simp only [wait_low, read_pin, hpin, if_true]
    exact ih _

theorem wait_high_always_low (pin : Nat → Bool) (hpin : ∀ k, pin k = false) :
    ∀ (fuel : Nat) (hw : Hw), wait_high pin fuel hw = .error .outOfFuel := by
  intro fuel
  induction fuel with
  | zero => intro hw; rfl
  | succ fuel ih =>
    intro hw
    simp only [wait_high, read_pin, hpin, Bool.not_false, if_true]
    exact ih _

/-- On a pin that never changes level, the first byte of `n64_get` is never completed. -/
theorem get_bytes_blocks (pin : Nat → Bool) (fuel i n : Nat) (buf : List Nat) (hw : Hw)
    (hconst : (∀ k, pin k = true) ∨ (∀ k, pin k = false)) :
    get_bytes pin fuel i (n + 1) buf hw = .error .outOfFuel := by
  rw [get_bytes]
  rcases hconst with hhigh | hlow
  · cases hwh : wait_high pin fuel hw with
    | error e =>
      cases fuel with
      | zero => simp only [wait_high] at hwh; cases hwh; rfl
      | succ f => simp [wait_high, read_pin, hhigh] at hwh
    | ok hwa =>
      simp only
      rw [get_bits, wait_low_always_high pin hhigh]
  · rw [wait_high_always_low pin hlow]

/-- C17 (no timeout): for every `len ≥ 1`, every buffer and every state, if the pin reads the
same level at every sample, always high or always low, then for every spin budget `n64_get`
ends out of fuel and not with a result. By contrast `n64_send` returns for every buffer of
`len` bytes, `0 ≤ len ≤ 255`, after exactly `8 * len` bit slots and one stop bit. -/
theorem n64_get_no_timeout (pin : Nat → Bool) (fuel : Nat) (buf : List Nat) (len : Nat)
    (hw : Hw) (hlen : 1 ≤ len) (hconst : (∀ k, pin k = true) ∨ (∀ k, pin k = false)) :
    n64_get pin fuel buf len hw = .error .outOfFuel ∧
    (∀ (sbuf : List Nat) (slen : Nat) (hw0 : Hw), slen = sbuf.length → slen ≤ 255 →
      ∃ (hw1 : Hw) (bits : List Bool), n64_send sbuf slen hw0 = .ok hw1 ∧
        bits.length = 8 * slen ∧
        hw1.trace = hw0.trace ++ Ev.pin true :: (bits.flatMap spec_bit_pulse ++ spec_stop_bit)) := by
  constructor
  · obtain ⟨n, rfl⟩ : ∃ n, len = n + 1 := ⟨len - 1, by omega⟩
    unfold n64_get
    simp only
    rw [get_bytes_blocks pin fuel 0 n buf _ hconst]
  · intro sbuf slen hw0 hs _
    refine ⟨_, sbuf.flatMap spec_byte_bits, n64_send_eq sbuf slen hw0 hs, ?_, ?_⟩
    · rw [(spec_frame_bits sbuf).2, hs]
    · simp only [(spec_frame_bits sbuf).1]

/-- C17 on a pin held high, with the 3-byte buffer and a budget of 1000 spins. -/
theorem n64_get_no_timeout_witness :
    ((1 ≤ 3) ∧ ((∀ k : Nat, (fun _ => true) k = true) ∨ (∀ k : Nat, (fun _ => true) k = false))) ∧
    n64_get (fun _ => true) 1000 [0, 0, 0] 3 hw_init = .error .outOfFuel :=
  ⟨⟨by decide, Or.inl (fun _ => rfl)⟩,
    (n64_get_no_timeout (fun _ => true) 1000 [0, 0, 0] 3 hw_init (by decide)
      (Or.inl (fun _ => rfl))).1⟩

/-! ## Pin configuration left by `n64_send` and `n64_get` -/

theorem set_bits_other (p k : Nat) (hp : p < 256) (hk : k ≠ N64_DATA_PIN) :
    (set_bits p N64_PIN_BIT).testBit k = p.testBit k := by
  have h256 : (256 : Nat) = 2 ^ 8 := by norm_num
  simp only [set_bits, pin_bit_val]
  simp only [N64_DATA_PIN] at hk
  rw [h256, Nat.testBit_mod_two_pow, Nat.testBit_or]
  by_cases h8 : k < 8
  · interval_cases k <;> first
      | exact absurd rfl hk
      | (generalize p.testBit _ = b; cases b <;> decide)
  · have hz : p.testBit k = false :=
      Nat.testBit_lt_two_pow
        (Nat.lt_of_lt_of_le hp (h256 ▸ Nat.pow_le_pow_right (by decide) (Nat.le_of_not_lt h8)))
    simp [h8, hz]

theorem clear_bits_other (p k : Nat) (hp : p < 256) (hk : k ≠ N64_DATA_PIN) :
    (clear_bits p N64_PIN_BIT).testBit k = p.testBit k := by
  have h256 : (256 : Nat) = 2 ^ 8 := by norm_num
  simp only [clear_bits, pin_bit_val]
  simp only [N64_DATA_PIN] at hk
  rw [h256, Nat.testBit_mod_two_pow, Nat.testBit_and]
  by_cases h8 : k < 8
  · interval_cases k <;> first
      | exact absurd rfl hk
      | (generalize p.testBit _ = b; cases b <;> decide)
  · have hz : p.testBit k = false :=
      Nat.testBit_lt_two_pow
        (Nat.lt_of_lt_of_le hp (h256 ▸ Nat.pow_le_pow_right (by decide) (Nat.le_of_not_lt h8)))
    simp [h8, hz]

/-- C16 (pin configuration and frame): for every value below 256 of the data port, the
direction/pull-up register and the open-drain register, and every buffer of `len` bytes: after
`n64_send` the pin bit is 1 in the direction/pull-up register, 0 in the open-drain register
and 1 in the data port; after a call of `n64_get` that returns, the pin bit is 0 in the
direction/pull-up register and 1 in the open-drain register, and the data port was not
written (its value is the initial one and the trace gained delay requests only); in both
cases every other bit of the three registers has its initial value. -/
theorem pin_configuration (ref_buff : List Nat) (len : Nat) (hw : Hw)
    (hlen : len = ref_buff.length) (hport : hw.port < 256) (hpu : hw.pu < 256)
    (hoc : hw.oc < 256) :
    (∃ hw1, n64_send ref_buff len hw = .ok hw1 ∧
      hw1.pu.testBit N64_DATA_PIN = true ∧ hw1.oc.testBit N64_DATA_PIN = false ∧
      hw1.port.testBit N64_DATA_PIN = true ∧
      ∀ k, k ≠ N64_DATA_PIN →
        hw1.pu.testBit k = hw.pu.testBit k ∧ hw1.oc.testBit k = hw.oc.testBit k ∧
        hw1.port.testBit k = hw.port.testBit k) ∧
    (∀ (pin : Nat → Bool) (fuel recvd : Nat) (buf1 : List Nat) (hw2 : Hw),
      n64_get pin fuel ref_buff len hw = .ok (recvd, buf1, hw2) →
        hw2.pu.testBit N64_DATA_PIN = false ∧ hw2.oc.testBit N64_DATA_PIN = true ∧
        hw2.port = hw.port ∧
        (∃ n, hw2.trace = hw.trace ++ List.replicate n (Ev.delay 1)) ∧
        ∀ k, k ≠ N64_DATA_PIN →
          hw2.pu.testBit k = hw.pu.testBit k ∧ hw2.oc.testBit k = hw.oc.testBit k) := by
  constructor
  · refine ⟨_, n64_send_eq ref_buff len hw hlen, testBit_set_bits _, testBit_clear_bits _,
      testBit_set_bits _, ?_⟩
    intro k hk
    exact ⟨set_bits_other _ k hpu hk, clear_bits_other _ k hoc hk, set_bits_other _ k hport hk⟩
  · intro pin fuel recvd buf1 hw2 hg
    obtain ⟨_, hp, hu, ho, _, _, hk⟩ := n64_get_frame pin fuel ref_buff len hw recvd buf1 hw2 hg
    refine ⟨by rw [hu]; exact testBit_clear_bits _, by rw [ho]; exact testBit_set_bits _,
      hp, hk, ?_⟩
    intro k hkk
    rw [hu, ho]
    exact ⟨clear_bits_other _ k hpu hkk, set_bits_other _ k hoc hkk⟩

/-- C16 from the state with all registers at `0xFF`: `n64_send` of three zero bytes, and a
call of `n64_get` that returns after 24 bit slots. -/
theorem pin_configuration_witness :
    (3 = [0, 0, 0].length ∧ hw_init.port < 256 ∧ hw_init.pu < 256 ∧ hw_init.oc < 256) ∧
    (∃ hw1, n64_send [0, 0, 0] 3 hw_init = .ok hw1 ∧
      hw1.pu.testBit N64_DATA_PIN = true ∧ hw1.oc.testBit N64_DATA_PIN = false ∧
      hw1.port.testBit N64_DATA_PIN = true) ∧
    (n64_get (stream ((List.replicate 24 true).flatMap slot_samples)) 4 [0, 0, 0] 3 hw_init
        = .ok (0, [0, 0, 0], hw_after_get) ∧
      hw_after_get.pu.testBit N64_DATA_PIN = false ∧
      hw_after_get.oc.testBit N64_DATA_PIN = true ∧ hw_after_get.port = hw_init.port) :=
  have h := pin_configuration [0, 0, 0] 3 hw_init rfl (by decide) (by decide) (by decide)
  have hg := h.2 (stream ((List.replicate 24 true).flatMap slot_samples)) 4 0 [0, 0, 0]
    hw_after_get rfl
  ⟨⟨rfl, by decide, by decide, by decide⟩,
    (match h.1 with | ⟨hw1, h1, h2, h3, h4, _⟩ => ⟨hw1, h1, h2, h3, h4⟩),
    ⟨rfl, hg.1, hg.2.1, hg.2.2.1⟩⟩

/-! ## Injectivity of the encoding -/

theorem spec_bit_pulse_length (b : Bool) : (spec_bit_pulse b).length = 4 := by
  cases b <;> rfl

theorem spec_bit_pulse_inj (a b : Bool) (h : spec_bit_pulse a = spec_bit_pulse b) : a = b := by
  cases a <;> cases b <;> first | rfl | (exact absurd h (by decide))

theorem bit_pulses_inj :
    ∀ (xs ys : List Bool), xs.flatMap spec_bit_pulse = ys.flatMap spec_bit_pulse → xs = ys := by
  intro xs
  induction xs with
  | nil =>
    intro ys h
    cases ys with
    | nil => rfl
    | cons y ys =>
      have hl := congrArg List.length h
      simp only [List.flatMap_nil, List.flatMap_cons, List.length_nil, List.length_append,
        spec_bit_pulse_length] at hl
      omega
  | cons x xs ih =>
    intro ys h
    cases ys with
    | nil =>
      have hl := congrArg List.length h
      simp only [List.flatMap_nil, List.flatMap_cons, List.length_nil, List.length_append,
        spec_bit_pulse_length] at hl
      omega
    | cons y ys =>
      simp only [List.flatMap_cons] at h
      obtain ⟨h1, h2⟩ := List.append_inj h
        (by rw [spec_bit_pulse_length, spec_bit_pulse_length])
      rw [spec_bit_pulse_inj x y h1, ih ys h2]

theorem spec_byte_bits_length (x : Nat) : (spec_byte_bits x).length = 8 := rfl

theorem spec_byte_bits_inj (x y : Nat) (hx : x < 256) (hy : y < 256)
    (h : spec_byte_bits x = spec_byte_bits y) : x = y := by
  have h256 : (256 : Nat) = 2 ^ 8 := by norm_num
  simp only [spec_byte_bits, List.map_cons, List.map_nil, List.cons.injEq, and_true] at h
  obtain ⟨h7, h6, h5, h4, h3, h2, h1, h0⟩ := h
  apply Nat.eq_of_testBit_eq
  intro i
  by_cases h8 : i < 8
  · interval_cases i <;> assumption
  · have hle : 2 ^ 8 ≤ 2 ^ i := Nat.pow_le_pow_right (by decide) (Nat.le_of_not_lt h8)
    rw [Nat.testBit_lt_two_pow (Nat.lt_of_lt_of_le (h256 ▸ hx) hle),
      Nat.testBit_lt_two_pow (Nat.lt_of_lt_of_le (h256 ▸ hy) hle)]

theorem bytes_bits_inj :
    ∀ (xs ys : List Nat), (∀ x ∈ xs, x < 256) → (∀ y ∈ ys, y < 256) →
      xs.flatMap spec_byte_bits = ys.flatMap spec_byte_bits → xs = ys := by
  intro xs
  induction xs with
  | nil =>
    intro ys _ _ h
    cases ys with
    | nil => rfl
    | cons y ys =>
      have hl := congrArg List.length h
      simp only [List.flatMap_nil, List.flatMap_cons, List.length_nil, List.length_append,
        spec_byte_bits_length] at hl
      omega
  | cons x xs ih =>
    intro ys hxs hys h
    cases ys with
    | nil =>
      have hl := congrArg List.length h
      simp only [List.flatMap_nil, List.flatMap_cons, List.length_nil, List.length_append,
        spec_byte_bits_length] at hl
      omega
    | cons y ys =>
      simp only [List.flatMap_cons] at h
      obtain ⟨h1, h2⟩ := List.append_inj h
        (by rw [spec_byte_bits_length, spec_byte_bits_length])
      have hxy := spec_byte_bits_inj x y (hxs x (List.mem_cons_self x xs))
        (hys y (List.mem_cons_self y ys)) h1
      have hrest := ih ys (fun a ha => hxs a (List.mem_cons_of_mem x ha))
        (fun a ha => hys a (List.mem_cons_of_mem y ha)) h2
      rw [hxy, hrest]

/-- C18 (the encoding is injective): for all byte sequences `b1` and `b2` of at most 255
bytes (each byte below 256), of equal or different lengths, if `n64_send` started in the same
state leaves the same sequence of pin writes and delays for `b1` and for `b2`, then
`b1 = b2`. -/
theorem n64_send_injective (b1 b2 : List Nat) (hw : Hw)
    (hb1 : ∀ x ∈ b1, x < 256) (hb2 : ∀ x ∈ b2, x < 256)
    (hl1 : b1.length ≤ 255) (hl2 : b2.length ≤ 255)
    (h : (n64_send b1 b1.length hw).map (fun r => r.trace)
      = (n64_send b2 b2.length hw).map (fun r => r.trace)) :
    b1 = b2 := by
  have _ := hl1
  have _ := hl2
  rw [n64_send_eq b1 b1.length hw rfl, n64_send_eq b2 b2.length hw rfl] at h
  simp only [Except.map, Except.ok.injEq, List.append_cancel_left_eq, List.cons.injEq,
    true_and] at h
  rw [(spec_frame_bits b1).1, (spec_frame_bits b2).1, List.append_cancel_right_eq] at h
  exact bytes_bits_inj b1 b2 hb1 hb2 (bit_pulses_inj _ _ h)

/-- C18 at the one-byte sequence `0x80` on both sides. -/
theorem n64_send_injective_witness :
    ((∀ x ∈ [0x80], x < 256) ∧ ([0x80] : List Nat).length ≤ 255 ∧
      (n64_send [0x80] [0x80].length hw_init).map (fun r => r.trace)
        = (n64_send [0x80] [0x80].length hw_init).map (fun r => r.trace)) ∧
    ([0x80] : List Nat) = [0x80] :=
  ⟨⟨by decide, by decide, rfl⟩,
    n64_send_injective [0x80] [0x80] hw_init (by decide) (by decide) (by decide) (by decide) rfl⟩

end N64
